import Mathlib

/-! Formal model of the recurrence-expansion and conflict-detection engine of
the `lcda-calendar` repository (`src/app/api/events/route.ts` and the events
service layer it re-exports).  Instants are modelled as natural numbers
counting milliseconds since the Unix epoch (UTC); JS arrays are modelled as
Lean lists in the same order.  The prisma store and the HTTP plumbing are
external collaborators: functions that read from the store take the store's
reply as an explicit list argument. -/

namespace LcdaCalendar

/-- Milliseconds in one minute. -/
def minuteMs : Nat := 60000

/-- Milliseconds in one day. -/
def dayMs : Nat := 86400000

/-- Whether a proleptic-Gregorian year is a leap year. -/
def isLeapYear (y : Nat) : Bool :=
  y % 4 == 0 && (y % 100 != 0 || y % 400 == 0)

/-- Number of days in month `m` (1..12) of year `y`. -/
def daysInMonth (y m : Nat) : Nat :=
  if m == 2 then (if isLeapYear y then 29 else 28)
  else if m == 4 || m == 6 || m == 9 || m == 11 then 30
  else 31

/-- Convert a count of days since 1970-01-01 to a Gregorian civil date
`(year, month, day)`; the standard era-based conversion, valid for every
instant used here (all lie at or after the epoch). -/
def civilFromDays (z0 : Nat) : Nat × Nat × Nat :=
  let z := z0 + 719468
  let era := z / 146097
  let doe := z % 146097
  let yoe := (doe - doe / 1460 + doe / 36524 - doe / 146096) / 365
  let y0 := yoe + era * 400
  let doy := doe - (365 * yoe + yoe / 4 - yoe / 100)
  let mp := (5 * doy + 2) / 153
  let d := doy - (153 * mp + 2) / 5 + 1
  let m := if mp < 10 then mp + 3 else mp - 9
  (if m ≤ 2 then y0 + 1 else y0, m, d)

/-- Convert a Gregorian civil date to days since 1970-01-01 (only dates at or
after the epoch are used). -/
def daysFromCivil (y m d : Nat) : Nat :=
  let y1 := if m ≤ 2 then y - 1 else y
  let era := y1 / 400
  let yoe := y1 % 400
  let mp := if 2 < m then m - 3 else m + 9
  let doy := (153 * mp + 2) / 5 + d - 1
  let doe := yoe * 365 + yoe / 4 - yoe / 100 + doy
  era * 146097 + doe - 719468

/-- date-fns `addMonths(t, n)`: the same day-of-month `n` calendar months
later, with the day clamped to the length of the target month and the time of
day preserved. -/
def addMonths (t : Nat) (n : Nat) : Nat :=
  let tod := t % dayMs
  match civilFromDays (t / dayMs) with
  | (y, m, d) =>
    let months := y * 12 + (m - 1) + n
    let y2 := months / 12
    let m2 := months % 12 + 1
    let d2 := min d (daysInMonth y2 m2)
    daysFromCivil y2 m2 d2 * dayMs + tod

/-- Left-pad a numeral to two digits. -/
def pad2 (n : Nat) : String :=
  if n < 10 then "0" ++ toString n else toString n

/-- Left-pad a numeral to three digits. -/
def pad3 (n : Nat) : String :=
  if n < 10 then "00" ++ toString n
  else if n < 100 then "0" ++ toString n
  else toString n

/-- Left-pad a numeral to four digits. -/
def pad4 (n : Nat) : String :=
  if n < 10 then "000" ++ toString n
  else if n < 100 then "00" ++ toString n
  else if n < 1000 then "0" ++ toString n
  else toString n

/-- `Date.prototype.toISOString` of an instant (UTC). -/
def isoString (t : Nat) : String :=
  match civilFromDays (t / dayMs) with
  | (y, m, d) =>
    let r := t % dayMs
    pad4 y ++ "-" ++ pad2 m ++ "-" ++ pad2 d ++ "T" ++
      pad2 (r / 3600000) ++ ":" ++ pad2 (r % 3600000 / 60000) ++ ":" ++
      pad2 (r % 60000 / 1000) ++ "." ++ pad3 (r % 1000) ++ "Z"

/-- The wire/persisted recurrence-rule payload (`RecurrenceRuleInput` in the
source); the `until` field, a Lean keyword, is `untilTime` and carries the instant parsed from the ISO string. -/
structure RecurrenceRuleInput where
  weekdays : List Nat
  interval : Option Nat
  count : Option Nat
  untilTime : Option Nat
deriving Repr, DecidableEq

/-- Content of the persisted `recurrenceRule` column when it is not `null`:
either a blob on which `JSON.parse` fails, or one that parses to a rule
payload. -/
inductive RuleBlob where
  | malformed
  | parsed (rule : RecurrenceRuleInput)
deriving Repr, DecidableEq

/-- A member row as included with an event's participants. -/
structure Member where
  id : String
  name : String
  part : Option String
  contact : Option String
deriving Repr, DecidableEq

/-- A stored event row, together with its included participant members.
`end` is a Lean keyword, so the source's `end` column is called `endTime`. -/
structure Event where
  id : String
  title : String
  description : Option String
  location : Option String
  color : String
  category : String
  start : Nat
  endTime : Nat
  timezone : String
  recurrenceRule : Option RuleBlob
  participants : List Member
deriving Repr, DecidableEq

/-- `CalendarEventResponse`: one occurrence as returned to the caller.  The
source serializes `start`/`end` as ISO strings; since `toISOString` is
injective and the only in-engine consumer (the sort comparator) re-parses
them to instants, the model keeps the instants; the ISO rendering appears in
the synthetic per-occurrence `id`. -/
structure CalendarEventResponse where
  id : String
  sourceEventId : String
  title : String
  description : Option String
  location : Option String
  color : String
  category : String
  start : Nat
  endTime : Nat
  timezone : String
  isRecurring : Bool
  recurrenceSummary : Option String
  recurrence : Option RecurrenceRuleInput
  participants : List Member
deriving Repr, DecidableEq

/-- `parseRecurrence`: a `null` column, an unparseable blob, and a payload
with a missing/empty `weekdays` array all degrade to `null`. -/
def parseRecurrence : Option RuleBlob → Option RecurrenceRuleInput
  | none => none
  | some RuleBlob.malformed => none
  | some (RuleBlob.parsed rule) => if rule.weekdays.isEmpty then none else some rule

/-- Weekday of an instant, 0 = Sunday .. 6 = Saturday (the JS `Date.getDay`
convention used by the `weekdays` payload); day 0 of the epoch, 1970-01-01,
was a Thursday (= 4). -/
def weekdayOf (t : Nat) : Nat := (t / dayMs + 4) % 7

/-- Index of the instant's week, where weeks begin on Monday — the RFC 5545
default `WKST=MO`, which is also `rrule`'s default; 1970-01-01 (a Thursday)
lies in week 0. -/
def mondayWeek (t : Nat) : Nat := (t / dayMs + 3) / 7

/-- Whether the candidate instant on day `j` after `dtstart` belongs to the
weekly pattern: its weekday is one of the selected `weekdays`, and its
Monday-based week lies a whole multiple of `interval` weeks after `dtstart`'s
week. -/
def rruleMatches (dtstart : Nat) (weekdays : List Nat) (interval : Nat) (j : Nat) : Bool :=
  weekdays.contains (weekdayOf (dtstart + j * dayMs)) &&
  (mondayWeek (dtstart + j * dayMs) - mondayWeek dtstart) % interval == 0

/-- Model of `buildRRule(dtstart, rule).between(rangeStart, rangeEnd, true)`,
the occurrence-start instants the `rrule` library yields inside the inclusive
window.  Semantics of `RRULE:FREQ=WEEKLY;INTERVAL=k;BYDAY=...` as implemented
by `rrule`: the occurrence sequence consists of the instants with `dtstart`'s
time of day, at or after `dtstart`, whose weekday is selected and whose week
(weeks starting Monday, the default `wkst`) is a multiple of `interval` weeks
after `dtstart`'s week (`dtstart` itself is emitted only when it matches the
pattern); the sequence stops after the occurrence at `until` when given, and
after `count` occurrences when given, whichever bound is reached first; with
`count` = 0 or `interval` = 0 the iterator yields nothing.  `between` with
`inc = true` then keeps the occurrences `t` with `rangeStart ≤ t ≤ rangeEnd`.
Candidates are enumerated as whole-day offsets `j` from `dtstart` (adding
whole UTC days preserves the time of day); offsets past `rangeEnd` cannot
contribute and are not enumerated, which is sound because the sequence is
increasing.  Weekday indices are 0..6, validated at the API boundary. -/
def rruleBetween (dtstart : Nat) (rule : RecurrenceRuleInput)
    (rangeStart rangeEnd : Nat) : List Nat :=
  let interval := rule.interval.getD 1
  if interval == 0 then []
  else
    let jMax := if dtstart ≤ rangeEnd then (rangeEnd - dtstart) / dayMs + 1 else 0
    let js := (List.range jMax).filter (rruleMatches dtstart rule.weekdays interval)
    let all := js.map (fun j => dtstart + j * dayMs)
    let bounded := match rule.untilTime with
      | some u => all.filter (fun t => decide (t ≤ u))
      | none => all
    let counted := match rule.count with
      | some c => bounded.take c
      | none => bounded
    counted.filter (fun t => decide (rangeStart ≤ t) && decide (t ≤ rangeEnd))

/-- date-fns v3+ `isWithinInterval`: the two interval endpoints are sorted and
membership is inclusive on both sides. -/
def isWithinInterval (t a b : Nat) : Bool :=
  decide (min a b ≤ t) && decide (t ≤ max a b)

/-- The read-path visibility test for an event without a recurrence rule:
its start lies in the window, or its end lies in the window, or its interval
contains the window. -/
def nonRecurringVisible (e : Event) (rangeStart rangeEnd : Nat) : Bool :=
  isWithinInterval e.start rangeStart rangeEnd ||
  isWithinInterval e.endTime rangeStart rangeEnd ||
  (decide (e.start ≤ rangeStart) && decide (rangeEnd ≤ e.endTime))

/-- date-fns `format(new Date(u), "M월 d일")` (month and day, unpadded). -/
def formatMonthDay (u : Nat) : String :=
  match civilFromDays (u / dayMs) with
  | (_, m, d) => toString m ++ "월 " ++ toString d ++ "일"

/-- `formatWeekday`: Korean single-character weekday names, `""` when out of
range. -/
def formatWeekday (day : Nat) : String :=
  (["일", "월", "화", "수", "목", "금", "토"].getD day "")

/-- `buildRecurrenceSummary` for a non-null rule.  JS truthiness: an absent
`interval` or `interval = 0` falls back to the every-week phrase, and an
absent `count` or `count = 0` falls through to the `until` phrasing. -/
def buildRecurrenceSummary (rule : RecurrenceRuleInput) : String :=
  let weekdayNames := String.intercalate ", " (rule.weekdays.map formatWeekday)
  let intervalText :=
    if 1 < rule.interval.getD 0 then toString (rule.interval.getD 0) ++ "주마다" else "매주"
  if rule.count.getD 0 != 0 then
    intervalText ++ " " ++ weekdayNames ++ " · " ++ toString (rule.count.getD 0) ++ "회"
  else
    match rule.untilTime with
    | some u => intervalText ++ " " ++ weekdayNames ++ " · " ++ formatMonthDay u ++ "까지"
    | none => intervalText ++ " " ++ weekdayNames

/-- `Math.max(differenceInMilliseconds(event.end, event.start), 30 * 60 * 1000)`.
(For `end < start` the JS difference is negative and the floor wins, exactly
as truncated subtraction makes it here.) -/
def baseDuration (e : Event) : Nat := max (e.endTime - e.start) (30 * minuteMs)

/-- `toResponse`: package one concrete occurrence of a stored event. -/
def toResponse (e : Event) (start endT : Nat) (recurring : Bool)
    (summary : Option String) (recurrence : Option RecurrenceRuleInput) :
    CalendarEventResponse :=
  { id := if recurring then e.id ++ ":" ++ isoString start else e.id
    sourceEventId := e.id
    title := e.title
    description := e.description
    location := e.location
    color := e.color
    category := e.category
    start := start
    endTime := endT
    timezone := e.timezone
    isRecurring := recurring
    recurrenceSummary := summary
    recurrence := recurrence
    participants := e.participants }

/-- The occurrences `expandEvents` pushes for one event, in push order. -/
def expandOne (rangeStart rangeEnd : Nat) (e : Event) : List CalendarEventResponse :=
  match parseRecurrence e.recurrenceRule with
  | none =>
    if nonRecurringVisible e rangeStart rangeEnd then
      [toResponse e e.start e.endTime false none none]
    else []
  | some rule =>
    (rruleBetween e.start rule rangeStart rangeEnd).map
      (fun s => toResponse e s (s + baseDuration e) true
        (some (buildRecurrenceSummary rule)) (some rule))

/-- Stable insertion into a list sorted by ascending `start`. -/
def insertByStart (x : CalendarEventResponse) :
    List CalendarEventResponse → List CalendarEventResponse
  | [] => [x]
  | y :: ys => if x.start ≤ y.start then x :: y :: ys else y :: insertByStart x ys

/-- Stable sort by ascending `start`: the model of `Array.prototype.sort` with
the comparator `(a, b) => a.start - b.start` (JS sort is stable, and a stable
sort by a key is extensionally unique). -/
def sortByStart : List CalendarEventResponse → List CalendarEventResponse
  | [] => []
  | x :: xs => insertByStart x (sortByStart xs)

/-- `expandEvents`: expand every event over the window, then sort all
occurrences by ascending start. -/
def expandEvents (events : List Event) (rangeStart rangeEnd : Nat) :
    List CalendarEventResponse :=
  sortByStart (events.flatMap (expandOne rangeStart rangeEnd))

/-- JS `String.prototype.trim`: strip leading and trailing whitespace
(modelled structurally on the character list). -/
def jsTrim (s : String) : String :=
  ⟨((s.toList.dropWhile Char.isWhitespace).reverse.dropWhile Char.isWhitespace).reverse⟩

/-- Split a character list at every whitespace character, keeping empty
pieces (they are filtered away right after, which makes this agree with the
JS `split(/\s+/)` + `filter` pipeline). -/
def splitWsAux : List Char → List Char → List String
  | [], acc => [⟨acc.reverse⟩]
  | c :: cs, acc =>
    if c.isWhitespace then ⟨acc.reverse⟩ :: splitWsAux cs []
    else splitWsAux cs (c :: acc)

/-- Split a string at whitespace characters. -/
def splitWs (s : String) : List String := splitWsAux s.toList []

/-- JS `slice(0, n)`: the first `n` characters. -/
def jsTake (s : String) (n : Nat) : String := ⟨s.toList.take n⟩

/-- JS `slice(-n)`: the last `n` characters. -/
def jsTakeRight (s : String) (n : Nat) : String :=
  ⟨s.toList.drop (s.toList.length - n)⟩

/-- JS `toLowerCase` (per character; the searchable fields are ASCII or
Hangul, which lower-casing leaves unchanged). -/
def jsToLower (s : String) : String := ⟨s.toList.map Char.toLower⟩

/-- Append `x` unless already present — one step of filling a JS `Set`, which
iterates in insertion order. -/
def insertUnique (l : List String) (x : String) : List String :=
  if x ∈ l then l else l ++ [x]

/-- `buildSearchPatterns`: whitespace tokens; for tokens of length ≥ 3 also a
leading and a trailing slice of `max 2 ⌈0.6·len⌉` characters; for multi-token
input also the space-joined phrase; deduplicated in insertion order and
lower-cased at the end.  (`Math.ceil(len * 0.6)` equals `⌈3·len / 5⌉` for
every string length: the double-rounding error of `0.6` is far below the
half-ulp at those magnitudes.) -/
def buildSearchPatterns (input : String) : List String :=
  let tokens := ((splitWs input).map (fun t => jsTrim t)).filter
    (fun t => decide (0 < t.length))
  let patterns := tokens.foldl (fun acc token =>
    let acc := insertUnique acc token
    if 3 ≤ token.length then
      let sliceLength := max 2 ((3 * token.length + 4) / 5)
      insertUnique (insertUnique acc (jsTake token sliceLength))
        (jsTakeRight token sliceLength)
    else acc) []
  let patterns :=
    if 1 < tokens.length then insertUnique patterns (String.intercalate " " tokens)
    else patterns
  patterns.map (fun p => jsToLower p)

/-- Whether `pat` starts the character list `hay`. -/
def charsStartWith : List Char → List Char → Bool
  | _, [] => true
  | [], _ :: _ => false
  | h :: hs, p :: ps => h == p && charsStartWith hs ps

/-- Whether `pat` occurs contiguously inside `hay` (JS `String.includes`). -/
def charsContain (pat : List Char) : List Char → Bool
  | [] => charsStartWith [] pat
  | h :: t => charsStartWith (h :: t) pat || charsContain pat t

/-- JS `haystack.includes(pattern)`. -/
def strIncludes (hay pat : String) : Bool := charsContain pat.toList hay.toList

/-- `matchesSearch`: join the searchable fields into one lower-cased haystack
and test whether any pattern occurs in it. -/
def matchesSearch (event : CalendarEventResponse) (patterns : List String) : Bool :=
  let haystacks := jsToLower (String.intercalate " "
    [event.title, event.description.getD "", event.location.getD "", event.category,
     event.recurrenceSummary.getD "",
     String.intercalate " " (event.participants.map (fun p => p.name)),
     String.intercalate " "
       ((event.participants.map (fun p => p.part.getD "")).filter (fun s => !(s == "")))])
  patterns.any (fun pattern => strIncludes haystacks pattern)

/-- Pure model of `getEventsInRange`.  The prisma query (coarse range bounds,
category/participant filters, ordering) belongs to the external store, so the
store's reply is the explicit `rawEvents` argument; the in-process part —
expansion plus the optional search filter — is modelled. -/
def getEventsInRange (rawEvents : List Event) (start endT : Nat)
    (search : Option String) : List CalendarEventResponse :=
  let searchPatterns := match search with
    | some s => if 0 < (jsTrim s).length then some (buildSearchPatterns s) else none
    | none => none
  let expanded := expandEvents rawEvents start endT
  match searchPatterns with
  | none => expanded
  | some pats =>
    if pats.length == 0 then expanded
    else expanded.filter (fun ev => matchesSearch ev pats)

/-- `generateCandidateOccurrences`: the candidate's own occurrences over the
scan window; without a rule, the single raw interval. -/
def generateCandidateOccurrences (start endT : Nat)
    (recurrence : Option RecurrenceRuleInput) (rangeStart rangeEnd : Nat) :
    List (Nat × Nat) :=
  let dur := max (endT - start) (30 * minuteMs)
  match recurrence with
  | none => [(start, endT)]
  | some rule => (rruleBetween start rule rangeStart rangeEnd).map (fun s => (s, s + dur))

/-- The scan-horizon end computed by `assertNoConflict`: the rule's `until`
when present, otherwise `start` plus six calendar months; raised to the
candidate's own `end` when smaller. -/
def conflictRangeEnd (start endT : Nat) (recurrence : Option RecurrenceRuleInput) : Nat :=
  let r0 := match recurrence with
    | some rule =>
      match rule.untilTime with
      | some u => u
      | none => addMonths start 6
    | none => addMonths start 6
  if r0 < endT then endT else r0

/-- Pure model of `assertNoConflict`: `true` exactly when the source function
throws `EventConflictError`.  An existing occurrence is skipped when
`excludeId` is given and equals its `sourceEventId`; otherwise a conflict is
reported as soon as some candidate occurrence satisfies
`candidate.start ≤ existing.end && candidate.end ≥ existing.start`. -/
def assertNoConflict (storedEvents : List Event) (start endT : Nat)
    (recurrence : Option RecurrenceRuleInput) (excludeId : Option String) : Bool :=
  let rangeStart := start
  let rangeEnd := conflictRangeEnd start endT recurrence
  let candidateOccurrences :=
    generateCandidateOccurrences start endT recurrence rangeStart rangeEnd
  let conflicts := getEventsInRange storedEvents rangeStart rangeEnd none
  conflicts.any (fun conflict =>
    !(match excludeId with
      | some i => conflict.sourceEventId == i
      | none => false) &&
    candidateOccurrences.any (fun occurrence =>
      decide (occurrence.1 ≤ conflict.endTime) && decide (conflict.start ≤ occurrence.2)))

/-- Responses of the route's `GET` handler that matter to the window claims. -/
inductive GetResponse where
  | badRequest (message : String)
  | ok (events : List CalendarEventResponse)
deriving Repr, DecidableEq

/-- Pure model of the `GET` route handler's window validation.  A query
parameter is `none` when absent; a present parameter carries `none` when
`new Date(...)` parses to `NaN`, and the parsed instant otherwise.
`rawEvents` stands for the store's reply inside `getEventsInRange`. -/
def GET (startParam endParam : Option (Option Nat)) (search : Option String)
    (rawEvents : List Event) : GetResponse :=
  match startParam, endParam with
  | none, _ => GetResponse.badRequest "start and end query parameters are required"
  | some _, none => GetResponse.badRequest "start and end query parameters are required"
  | some sOpt, some eOpt =>
    match sOpt, eOpt with
    | some rangeStart, some rangeEnd =>
      GetResponse.ok (getEventsInRange rawEvents rangeStart rangeEnd search)
    | _, _ => GetResponse.badRequest "Invalid date range provided"

/-- The spec's inclusive intersection test of section 4.1 applied to an
occurrence interval, used to state the round-trip claim: the occurrence's
start lies in the window, or its end does, or it contains the window. -/
def occurrenceIntersectsWindow (o : CalendarEventResponse) (a b : Nat) : Bool :=
  (decide (a ≤ o.start) && decide (o.start ≤ b)) ||
  (decide (a ≤ o.endTime) && decide (o.endTime ≤ b)) ||
  (decide (o.start ≤ a) && decide (b ≤ o.endTime))

/-- A sample stored event with the given interval and rule payload. -/
def sampleEvent (id : String) (start endT : Nat) (blob : Option RuleBlob) : Event :=
  { id := id
    title := "합주"
    description := none
    location := none
    color := "#5b8def"
    category := "rehearsal"
    start := start
    endTime := endT
    timezone := "Asia/Seoul"
    recurrenceRule := blob
    participants := [] }

/-- Epoch day 4 (1970-01-05) was a Monday; a Monday 09:00 UTC instant. -/
def monday9am : Nat := 4 * dayMs + 9 * 3600000

/-- A stored non-recurring event occupying 1970-01-01 00:00:02–00:00:03. -/
def eventC1 : Event := sampleEvent "b" 2000 3000 none

/-- A rule whose `until` (1970-01-02) lies before start + 6 months. -/
def ruleC2 : RecurrenceRuleInput :=
  { weekdays := [1], interval := some 1, count := none, untilTime := some 86400000 }

/-- A non-recurring sample event. -/
def eventC3 : Event := sampleEvent "c3" 100 200 none

/-- Weekly on Monday, two occurrences in total. -/
def ruleC4 : RecurrenceRuleInput :=
  { weekdays := [1], interval := some 1, count := some 2, untilTime := none }

/-- A recurring event anchored on a Monday 09:00, one hour long. -/
def eventC4 : Event :=
  sampleEvent "c4" monday9am (monday9am + 3600000) (some (RuleBlob.parsed ruleC4))

/-- Weekly on Monday until one week after the anchor. -/
def ruleC5 : RecurrenceRuleInput :=
  { weekdays := [1], interval := some 1, count := none, untilTime := some (monday9am + 7 * dayMs) }

/-- A recurring event bounded by `until`. -/
def eventC5 : Event :=
  sampleEvent "c5" monday9am (monday9am + 3600000) (some (RuleBlob.parsed ruleC5))

/-- A persisted rule with nonempty weekdays but `count = 0`. -/
def ruleC6 : RecurrenceRuleInput :=
  { weekdays := [1], interval := some 1, count := some 0, untilTime := none }

/-- A recurring event whose persisted rule has `count = 0`. -/
def eventC6 : Event :=
  sampleEvent "c6" monday9am (monday9am + 3600000) (some (RuleBlob.parsed ruleC6))

/-- An event whose persisted rule blob does not parse. -/
def eventC6m : Event :=
  sampleEvent "c6m" monday9am (monday9am + 3600000) (some RuleBlob.malformed)

/-- A stored non-recurring event lasting only ten minutes. -/
def eventC8 : Event := sampleEvent "short" (19723 * dayMs) (19723 * dayMs + 600000) none

/-- Weekly on Monday, unbounded. -/
def ruleC9 : RecurrenceRuleInput :=
  { weekdays := [1], interval := some 1, count := none, untilTime := none }

/-- An unbounded weekly event anchored on a Monday 09:00, one hour long. -/
def eventC9 : Event :=
  sampleEvent "w" monday9am (monday9am + 3600000) (some (RuleBlob.parsed ruleC9))

/-- The first occurrence of `eventC4` as `expandEvents` emits it. -/
def occC4 : CalendarEventResponse :=
  toResponse eventC4 monday9am (monday9am + 3600000) true
    (some (buildRecurrenceSummary ruleC4)) (some ruleC4)

theorem mem_insertByStart {a x : CalendarEventResponse} {l : List CalendarEventResponse} :
    a ∈ insertByStart x l ↔ a = x ∨ a ∈ l := by
  induction l with
  | nil => simp [insertByStart]
  | cons y ys ih =>
    by_cases h : x.start ≤ y.start
    · simp [insertByStart, h]
    · simp only [insertByStart, if_neg h, List.mem_cons, ih]
      tauto

theorem length_insertByStart (x : CalendarEventResponse) (l : List CalendarEventResponse) :
    (insertByStart x l).length = l.length + 1 := by
  induction l with
  | nil => rfl
  | cons y ys ih =>
    by_cases h : x.start ≤ y.start <;> simp [insertByStart, h, ih]

theorem mem_sortByStart {a : CalendarEventResponse} {l : List CalendarEventResponse} :
    a ∈ sortByStart l ↔ a ∈ l := by
  induction l with
  | nil => simp [sortByStart]
  | cons y ys ih => simp [sortByStart, mem_insertByStart, ih]

theorem length_sortByStart (l : List CalendarEventResponse) :
    (sortByStart l).length = l.length := by
  induction l with
  | nil => rfl
  | cons y ys ih => simp [sortByStart, length_insertByStart, ih]

theorem pairwise_insertByStart {x : CalendarEventResponse} {l : List CalendarEventResponse}
    (h : l.Pairwise (fun a b => a.start ≤ b.start)) :
    (insertByStart x l).Pairwise (fun a b => a.start ≤ b.start) := by
  induction l with
  | nil => simp [insertByStart]
  | cons y ys ih =>
    rcases List.pairwise_cons.mp h with ⟨hy, hys⟩
    by_cases hxy : x.start ≤ y.start
    · rw [insertByStart, if_pos hxy]
      refine List.pairwise_cons.mpr ⟨?_, h⟩
      intro z hz
      rcases List.mem_cons.mp hz with rfl | hz
      · exact hxy
      · exact le_trans hxy (hy z hz)
    · rw [insertByStart, if_neg hxy]
      refine List.pairwise_cons.mpr ⟨?_, ih hys⟩
      intro z hz
      rcases mem_insertByStart.mp hz with rfl | hz
      · omega
      · exact hy z hz

theorem pairwise_sortByStart (l : List CalendarEventResponse) :
    (sortByStart l).Pairwise (fun a b => a.start ≤ b.start) := by
  induction l with
  | nil => simp [sortByStart]
  | cons y ys ih => exact pairwise_insertByStart ih

theorem insertByStart_of_forall_le {x : CalendarEventResponse}
    {l : List CalendarEventResponse} (h : ∀ z ∈ l, x.start ≤ z.start) :
    insertByStart x l = x :: l := by
  cases l with
  | nil => rfl
  | cons y ys => exact if_pos (h y (List.mem_cons_self y ys))

theorem filter_insertByStart (p : CalendarEventResponse → Bool)
    {x : CalendarEventResponse} {l : List CalendarEventResponse}
    (h : l.Pairwise (fun a b => a.start ≤ b.start)) :
    (insertByStart x l).filter p =
      if p x then insertByStart x (l.filter p) else l.filter p := by
  induction l with
  | nil => cases hpx : p x <;> simp [insertByStart, List.filter, hpx]
  | cons y ys ih =>
    rcases List.pairwise_cons.mp h with ⟨hy, hys⟩
    by_cases hxy : x.start ≤ y.start
    · rw [insertByStart, if_pos hxy]
      cases hpx : p x with
      | false =>
        simp [List.filter, hpx]
      | true =>
        simp only [List.filter, hpx, if_true]
        cases hpy : p y with
        | true =>
          rw [insertByStart, if_pos hxy]
        | false =>
          rw [insertByStart_of_forall_le]
          intro z hz
          have hz' : z ∈ ys := (List.mem_filter.mp hz).1
          exact le_trans hxy (hy z hz')
    · rw [insertByStart, if_neg hxy]
      cases hpx : p x with
      | false =>
        simp only [List.filter]
        cases hpy : p y with
        | true => simp [ih hys, hpx]
        | false => simp [ih hys, hpx]
      | true =>
        simp only [List.filter]
        cases hpy : p y with
        | true =>
          simp only [ih hys, hpx, if_true]
          rw [insertByStart, if_neg hxy]
        | false =>
          simp only [ih hys, hpx, if_true]

theorem filter_sortByStart (p : CalendarEventResponse → Bool)
    (l : List CalendarEventResponse) :
    (sortByStart l).filter p = sortByStart (l.filter p) := by
  induction l with
  | nil => rfl
  | cons y ys ih =>
    rw [sortByStart, filter_insertByStart p (pairwise_sortByStart ys), ih]
    cases hpy : p y with
    | true => simp [List.filter, hpy, sortByStart]
    | false => simp [List.filter, hpy]

theorem expandEvents_singleton (e : Event) (rangeStart rangeEnd : Nat) :
    expandEvents [e] rangeStart rangeEnd = sortByStart (expandOne rangeStart rangeEnd e) := by
  simp [expandEvents]

theorem rruleBetween_shape {dtstart : Nat} {rule : RecurrenceRuleInput}
    {rangeStart rangeEnd t : Nat}
    (ht : t ∈ rruleBetween dtstart rule rangeStart rangeEnd) :
    ∃ j, rruleMatches dtstart rule.weekdays (rule.interval.getD 1) j = true ∧
      t = dtstart + j * dayMs ∧ rangeStart ≤ t ∧ t ≤ rangeEnd ∧
      ∀ u, rule.untilTime = some u → t ≤ u := by
  simp only [rruleBetween] at ht
  by_cases hk0 : rule.interval.getD 1 == 0
  · rw [if_pos hk0] at ht
    simp at ht
  · rw [if_neg hk0] at ht
    rcases List.mem_filter.mp ht with ⟨ht1, ht2⟩
    have hwin : rangeStart ≤ t ∧ t ≤ rangeEnd := by
      simpa [Bool.and_eq_true, decide_eq_true_eq] using ht2
    have ht3 : t ∈ (match rule.untilTime with
        | some u => (((List.range (if dtstart ≤ rangeEnd then (rangeEnd - dtstart) / dayMs + 1 else 0)).filter
            (rruleMatches dtstart rule.weekdays (rule.interval.getD 1))).map
            (fun j => dtstart + j * dayMs)).filter (fun t => decide (t ≤ u))
        | none => ((List.range (if dtstart ≤ rangeEnd then (rangeEnd - dtstart) / dayMs + 1 else 0)).filter
            (rruleMatches dtstart rule.weekdays (rule.interval.getD 1))).map
            (fun j => dtstart + j * dayMs)) := by
      rcases hc : rule.count with _ | c
      · simpa [hc] using ht1
      · rw [hc] at ht1
        exact List.mem_of_mem_take ht1
    have ht4 : t ∈ ((List.range (if dtstart ≤ rangeEnd then (rangeEnd - dtstart) / dayMs + 1 else 0)).filter
          (rruleMatches dtstart rule.weekdays (rule.interval.getD 1))).map
          (fun j => dtstart + j * dayMs) ∧
        ∀ u, rule.untilTime = some u → t ≤ u := by
      rcases hu : rule.untilTime with _ | u
      · rw [hu] at ht3
        exact ⟨ht3, by simp⟩
      · rw [hu] at ht3
        rcases List.mem_filter.mp ht3 with ⟨hm, hb⟩
        refine ⟨hm, ?_⟩
        intro u' hu'
        cases hu'
        simpa using hb
    rcases List.mem_map.mp ht4.1 with ⟨j, hj, hval⟩
    rcases List.mem_filter.mp hj with ⟨_, hmatch⟩
    exact ⟨j, hmatch, hval.symm, hwin.1, hwin.2, ht4.2⟩

/-- C2 is false as stated: with `until` = 1970-01-02 00:00 on a candidate
starting 1970-01-01 00:00 and ending 00:30, the scan horizon ends at `until`
(86400000), strictly below start + 6 months, and differs from the claimed
`max(until, start + 6 months, candidateEnd)`. -/
theorem claim2_counterexample :
    conflictRangeEnd 0 1800000 (some ruleC2) = 86400000 ∧
    conflictRangeEnd 0 1800000 (some ruleC2) < addMonths 0 6 ∧
    conflictRangeEnd 0 1800000 (some ruleC2) ≠ max (max 86400000 (addMonths 0 6)) 1800000 := by
  decide

/-- C2 (amended): the conflict-scan horizon is `[candidateStart, horizonEnd]`
with `horizonEnd = max(until ?? candidateStart + 6 months, candidateEnd)`:
the rule's `until` when present — otherwise start plus six calendar months —
raised to the candidate's own end; it is never below the candidate's end, but
when `until` is present the six-month default takes no part. -/
theorem claim2_conflict_horizon (start endT : Nat) (recurrence : Option RecurrenceRuleInput) :
    (∀ rule u, recurrence = some rule → rule.untilTime = some u →
      conflictRangeEnd start endT recurrence = max u endT) ∧
    (∀ rule, recurrence = some rule → rule.untilTime = none →
      conflictRangeEnd start endT recurrence = max (addMonths start 6) endT) ∧
    (recurrence = none →
      conflictRangeEnd start endT recurrence = max (addMonths start 6) endT) ∧
    endT ≤ conflictRangeEnd start endT recurrence := by
  refine ⟨?_, ?_, ?_, ?_⟩
  · rintro rule u rfl hu
    simp only [conflictRangeEnd, hu]
    rw [Nat.max_def]
    split <;> split <;> omega
  · rintro rule rfl hu
    simp only [conflictRangeEnd, hu]
    rw [Nat.max_def]
    split <;> split <;> omega
  · rintro rfl
    simp only [conflictRangeEnd]
    rw [Nat.max_def]
    split <;> split <;> omega
  · rcases recurrence with _ | rule
    · simp only [conflictRangeEnd]
      split <;> omega
    · rcases h : rule.untilTime with _ | u <;> simp only [conflictRangeEnd, h] <;>
        split <;> omega

/-- C7 counterexample: a request whose two instants parse but whose window is
inverted (`rangeEnd < rangeStart`) is NOT rejected — the handler proceeds to
expansion and answers with an event list. -/
theorem claim7_counterexample :
    (5 : Nat) < 10 ∧ GET (some (some 10)) (some (some 5)) none [] = GetResponse.ok [] := by
  constructor
  · decide
  · rfl

/-- C7 (amended): the GET handler rejects exactly the requests with a missing
`start`/`end` parameter or one that parses to `NaN`; an inverted window with
two parseable instants is not rejected and reaches expansion. -/
theorem claim7_window_validation (startParam endParam : Option (Option Nat))
    (search : Option String) (rawEvents : List Event) :
    (∃ msg, GET startParam endParam search rawEvents = GetResponse.badRequest msg) ↔
      startParam = none ∨ endParam = none ∨ startParam = some none ∨ endParam = some none := by
  rcases startParam with _ | sOpt
  · simp [GET]
  · rcases endParam with _ | eOpt
    · simp [GET]
    · rcases sOpt with _ | s <;> rcases eOpt with _ | e <;> simp [GET]

/-- C1 is false as stated: a candidate 00:00:01–00:00:02 against a stored
event 00:00:02–00:00:03 (touching endpoints, back-to-back) IS reported as a
conflict, although no candidate/existing pair overlaps in the strict
open-interval sense `A.start < B.end ∧ A.end > B.start`. -/
theorem claim1_counterexample :
    assertNoConflict [eventC1] 1000 2000 none none = true ∧
    ¬ ∃ a ∈ generateCandidateOccurrences 1000 2000 none 1000 (conflictRangeEnd 1000 2000 none),
        ∃ b ∈ getEventsInRange [eventC1] 1000 (conflictRangeEnd 1000 2000 none) none,
          a.1 < b.endTime ∧ b.start < a.2 := by
  decide

/-- C1 (amended): the conflict check reports a conflict iff some candidate
occurrence `A` and some existing, non-excluded occurrence `B` overlap in the
INCLUSIVE sense `A.start ≤ B.end ∧ A.end ≥ B.start`; in particular two
occurrences with `A.end = B.start` (touching endpoints) DO conflict. -/
theorem claim1_conflict_iff_inclusive (stored : List Event) (start endT : Nat)
    (recurrence : Option RecurrenceRuleInput) (excludeId : Option String) :
    assertNoConflict stored start endT recurrence excludeId = true ↔
      ∃ b ∈ getEventsInRange stored start (conflictRangeEnd start endT recurrence) none,
        (∀ i, excludeId = some i → b.sourceEventId ≠ i) ∧
        ∃ a ∈ generateCandidateOccurrences start endT recurrence start
            (conflictRangeEnd start endT recurrence),
          a.1 ≤ b.endTime ∧ b.start ≤ a.2 := by
  simp only [assertNoConflict, List.any_eq_true, Bool.and_eq_true, decide_eq_true_eq]
  rcases excludeId with _ | i
  · simp
  · simp [and_assoc]

/-- C5: for a recurring event whose parsed rule carries `until = U`, no
occurrence produced by expansion over any window starts after `U`. -/
theorem claim5_until_bound (e : Event) (rule : RecurrenceRuleInput)
    (u rangeStart rangeEnd : Nat)
    (hparse : parseRecurrence e.recurrenceRule = some rule)
    (hu : rule.untilTime = some u) :
    ∀ o ∈ expandEvents [e] rangeStart rangeEnd, o.start ≤ u := by
  intro o ho
  rw [expandEvents_singleton] at ho
  have ho' : o ∈ expandOne rangeStart rangeEnd e := mem_sortByStart.mp ho
  rw [expandOne, hparse] at ho'
  rcases List.mem_map.mp ho' with ⟨s, hs, rfl⟩
  rcases rruleBetween_shape hs with ⟨j, _, _, _, _, huntil⟩
  simpa [toResponse] using huntil u hu

theorem claim5_witness :
    (toResponse eventC5 monday9am (monday9am + 3600000) true
      (some (buildRecurrenceSummary ruleC5)) (some ruleC5)).start ≤ monday9am + 7 * dayMs :=
  claim5_until_bound eventC5 ruleC5 (monday9am + 7 * dayMs) 0 (100 * dayMs) rfl rfl _
    (by decide)

/-- C6 is false for the `count = 0` part: a persisted rule with nonempty
weekdays and `count = 0` yields zero occurrences, while the same event with a
null rule yields its single raw occurrence — the two results differ. -/
theorem claim6_counterexample :
    expandEvents [eventC6] 0 (14 * dayMs) = [] ∧
    expandEvents [{ eventC6 with recurrenceRule := none }] 0 (14 * dayMs) ≠ [] := by
  decide

/-- C6 (amended): an unparseable persisted rule, or one parsing to an empty
weekday set, degrades without raising to exactly the null-rule result; but a
parsed rule with nonempty weekdays and `count = 0` is NOT normalized away —
it takes the recurring path and expansion yields zero occurrences. -/
theorem claim6_degradation (e : Event) (rule : RecurrenceRuleInput)
    (rangeStart rangeEnd : Nat) :
    ((e.recurrenceRule = some RuleBlob.malformed ∨
      (e.recurrenceRule = some (RuleBlob.parsed rule) ∧ rule.weekdays = [])) →
      expandEvents [e] rangeStart rangeEnd =
        expandEvents [{ e with recurrenceRule := none }] rangeStart rangeEnd) ∧
    (e.recurrenceRule = some (RuleBlob.parsed rule) → rule.weekdays ≠ [] →
      rule.count = some 0 →
      expandEvents [e] rangeStart rangeEnd = []) := by
  constructor
  · intro h
    have hparse : parseRecurrence e.recurrenceRule = none := by
      rcases h with h | ⟨h, hw⟩
      · rw [h]
        rfl
      · rw [h]
        simp [parseRecurrence, hw]
    rw [expandEvents_singleton, expandEvents_singleton]
    simp only [expandOne, hparse]
    rfl
  · intro hp hw hc
    have hparse : parseRecurrence e.recurrenceRule = some rule := by
      rw [hp]
      simp [parseRecurrence, hw]
    rw [expandEvents_singleton]
    simp only [expandOne, hparse]
    suffices h : rruleBetween e.start rule rangeStart rangeEnd = [] by
      rw [h]
      rfl
    simp only [rruleBetween, hc]
    split <;> simp

theorem claim6_witness :
    expandEvents [eventC6m] 0 (14 * dayMs) =
      expandEvents [{ eventC6m with recurrenceRule := none }] 0 (14 * dayMs) ∧
    expandEvents [eventC6] 0 (14 * dayMs) = [] :=
  ⟨(claim6_degradation eventC6m ruleC6 0 (14 * dayMs)).1 (Or.inl rfl),
   (claim6_degradation eventC6 ruleC6 0 (14 * dayMs)).2 rfl (by decide) rfl⟩

/-- C8 is false as stated: the single occurrence of a ten-minute non-recurring
event keeps its raw ten-minute length; the 30-minute floor is not applied on
the non-recurring path. -/
theorem claim8_counterexample :
    (expandEvents [eventC8] (19723 * dayMs) (19724 * dayMs)).map
        (fun o => o.endTime - o.start) = [600000] ∧
    (600000 : Nat) ≠ max (eventC8.endTime - eventC8.start) (30 * minuteMs) := by
  decide

/-- C8 (amended): the 30-minute duration floor
`end − start = max(stored duration, 30 minutes)` holds exactly for the
occurrences produced through the recurrence path; a non-recurring occurrence
keeps the raw stored `start`/`end` unchanged. -/
theorem claim8_duration_clamp (e : Event) (rangeStart rangeEnd : Nat) :
    ∀ o ∈ expandEvents [e] rangeStart rangeEnd,
      (o.isRecurring = true →
        o.endTime - o.start = max (e.endTime - e.start) (30 * minuteMs)) ∧
      (o.isRecurring = false → o.start = e.start ∧ o.endTime = e.endTime) := by
  intro o ho
  rw [expandEvents_singleton] at ho
  have ho' : o ∈ expandOne rangeStart rangeEnd e := mem_sortByStart.mp ho
  rcases hparse : parseRecurrence e.recurrenceRule with _ | rule
  · simp only [expandOne, hparse] at ho'
    split at ho'
    · rcases List.mem_singleton.mp ho' with rfl
      constructor
      · intro htrue
        simp [toResponse] at htrue
      · intro _
        exact ⟨rfl, rfl⟩
    · simp at ho'
  · simp only [expandOne, hparse] at ho'
    rcases List.mem_map.mp ho' with ⟨s, hs, rfl⟩
    constructor
    · intro _
      simp [toResponse, baseDuration]
    · intro hfalse
      simp [toResponse] at hfalse

theorem claim8_witness :
    (occC4.isRecurring = true →
      occC4.endTime - occC4.start = max (eventC4.endTime - eventC4.start) (30 * minuteMs)) ∧
    (occC4.isRecurring = false → occC4.start = eventC4.start ∧ occC4.endTime = eventC4.endTime) :=
  claim8_duration_clamp eventC4 0 (30 * dayMs) occC4 (by decide)

theorem claim1_witness :
    ∃ b ∈ getEventsInRange [eventC1] 1000 (conflictRangeEnd 1000 2000 none) none,
      (∀ i, (none : Option String) = some i → b.sourceEventId ≠ i) ∧
      ∃ a ∈ generateCandidateOccurrences 1000 2000 none 1000 (conflictRangeEnd 1000 2000 none),
        a.1 ≤ b.endTime ∧ b.start ≤ a.2 :=
  (claim1_conflict_iff_inclusive [eventC1] 1000 2000 none none).mp (by decide)

theorem claim2_witness :
    conflictRangeEnd 0 1800000 (some ruleC2) = max 86400000 1800000 ∧
    1800000 ≤ conflictRangeEnd 0 1800000 (some ruleC2) :=
  ⟨(claim2_conflict_horizon 0 1800000 (some ruleC2)).1 ruleC2 86400000 rfl rfl,
   (claim2_conflict_horizon 0 1800000 (some ruleC2)).2.2.2⟩

theorem claim7_witness :
    ∃ msg, GET (some none) (some (some 5)) none [] = GetResponse.badRequest msg :=
  (claim7_window_validation (some none) (some (some 5)) none []).mpr
    (Or.inr (Or.inr (Or.inl rfl)))

/-- C3: a non-recurring stored event expands to exactly its single raw
occurrence iff the window intersects it under the inclusive three-way test —
its start lies in the window, or its end does (so an event ending exactly at
`rangeStart` counts), or it contains the window — and to nothing otherwise. -/
theorem claim3_nonrecurring_window (e : Event) (rangeStart rangeEnd : Nat)
    (hrec : parseRecurrence e.recurrenceRule = none) (hr : rangeStart ≤ rangeEnd) :
    (((rangeStart ≤ e.start ∧ e.start ≤ rangeEnd) ∨
      (rangeStart ≤ e.endTime ∧ e.endTime ≤ rangeEnd) ∨
      (e.start ≤ rangeStart ∧ rangeEnd ≤ e.endTime)) →
      expandEvents [e] rangeStart rangeEnd =
        [toResponse e e.start e.endTime false none none]) ∧
    (¬ ((rangeStart ≤ e.start ∧ e.start ≤ rangeEnd) ∨
       (rangeStart ≤ e.endTime ∧ e.endTime ≤ rangeEnd) ∨
       (e.start ≤ rangeStart ∧ rangeEnd ≤ e.endTime)) →
      expandEvents [e] rangeStart rangeEnd = []) := by
  have hvis : nonRecurringVisible e rangeStart rangeEnd = true ↔
      ((rangeStart ≤ e.start ∧ e.start ≤ rangeEnd) ∨
       (rangeStart ≤ e.endTime ∧ e.endTime ≤ rangeEnd) ∨
       (e.start ≤ rangeStart ∧ rangeEnd ≤ e.endTime)) := by
    simp only [nonRecurringVisible, isWithinInterval, Bool.or_eq_true, Bool.and_eq_true,
      decide_eq_true_eq]
    omega
  constructor
  · intro h
    rw [expandEvents_singleton]
    simp only [expandOne, hrec, if_pos (hvis.mpr h)]
    rfl
  · intro h
    rw [expandEvents_singleton]
    simp only [expandOne, hrec, if_neg (fun habs => h (hvis.mp habs))]
    rfl

theorem claim3_witness :
    expandEvents [eventC3] 0 1000 = [toResponse eventC3 100 200 false none none] :=
  (claim3_nonrecurring_window eventC3 0 1000 rfl (by decide)).1 (Or.inl (by decide))

/-- C10: with a search filter, the read path returns exactly the occurrences
of the unfiltered expansion whose searchable text matches the derived
patterns: the filtered result IS the `filter` of the unfiltered result, hence
a sublist of it (same sorted order, every field of each kept occurrence
unchanged), with membership characterized by `matchesSearch`. -/
theorem claim10_search_is_pure_filter (rawEvents : List Event)
    (rangeStart rangeEnd : Nat) (s : String)
    (hs : 0 < (jsTrim s).length) (hp : buildSearchPatterns s ≠ []) :
    getEventsInRange rawEvents rangeStart rangeEnd (some s) =
      (getEventsInRange rawEvents rangeStart rangeEnd none).filter
        (fun ev => matchesSearch ev (buildSearchPatterns s)) ∧
    (getEventsInRange rawEvents rangeStart rangeEnd (some s)).Sublist
      (getEventsInRange rawEvents rangeStart rangeEnd none) ∧
    ∀ o, o ∈ getEventsInRange rawEvents rangeStart rangeEnd (some s) ↔
      (o ∈ getEventsInRange rawEvents rangeStart rangeEnd none ∧
        matchesSearch o (buildSearchPatterns s) = true) := by
  have hlen : ((buildSearchPatterns s).length == 0) = false := by
    simp [List.length_eq_zero, hp]
  have hmain : getEventsInRange rawEvents rangeStart rangeEnd (some s) =
      (expandEvents rawEvents rangeStart rangeEnd).filter
        (fun ev => matchesSearch ev (buildSearchPatterns s)) := by
    simp [getEventsInRange, hs, hlen]
  have hnone : getEventsInRange rawEvents rangeStart rangeEnd none =
      expandEvents rawEvents rangeStart rangeEnd := rfl
  refine ⟨by rw [hmain, hnone], ?_, ?_⟩
  · rw [hmain, hnone]
    exact List.filter_sublist _
  · intro o
    rw [hmain, hnone, List.mem_filter]

theorem claim10_witness :
    getEventsInRange [] 0 1000 (some "ab") =
      (getEventsInRange [] 0 1000 none).filter
        (fun ev => matchesSearch ev (buildSearchPatterns "ab")) :=
  (claim10_search_is_pure_filter [] 0 1000 "ab" (by decide) (by decide)).1

theorem nonRecurringVisible_iff (e : Event) {a b : Nat} (hv : e.start ≤ e.endTime)
    (hab : a ≤ b) :
    nonRecurringVisible e a b = true ↔ (e.start ≤ b ∧ a ≤ e.endTime) := by
  simp only [nonRecurringVisible, isWithinInterval, Bool.or_eq_true, Bool.and_eq_true,
    decide_eq_true_eq]
  omega

theorem expandOne_filter_subwindow (e : Event) {rs re w1 w2 : Nat}
    (hnr : parseRecurrence e.recurrenceRule = none) (hv : e.start ≤ e.endTime)
    (h1 : rs ≤ w1) (h12 : w1 ≤ w2) (h2 : w2 ≤ re) :
    (expandOne rs re e).filter (fun o => occurrenceIntersectsWindow o w1 w2) =
      expandOne w1 w2 e := by
  simp only [expandOne, hnr]
  by_cases hcase : e.start ≤ w2 ∧ w1 ≤ e.endTime
  · have hw : nonRecurringVisible e w1 w2 = true :=
      (nonRecurringVisible_iff e hv h12).mpr hcase
    have hW : nonRecurringVisible e rs re = true :=
      (nonRecurringVisible_iff e hv (by omega)).mpr (by omega)
    rw [if_pos hW, if_pos hw]
    have hocc : occurrenceIntersectsWindow
        (toResponse e e.start e.endTime false none none) w1 w2 = true := by
      simp only [occurrenceIntersectsWindow, toResponse, Bool.or_eq_true, Bool.and_eq_true,
        decide_eq_true_eq]
      omega
    simp [hocc]
  · have hw : ¬ nonRecurringVisible e w1 w2 = true :=
      fun h => hcase ((nonRecurringVisible_iff e hv h12).mp h)
    rw [if_neg hw]
    by_cases hW : nonRecurringVisible e rs re = true
    · rw [if_pos hW]
      have hocc : occurrenceIntersectsWindow
          (toResponse e e.start e.endTime false none none) w1 w2 = false := by
        rw [Bool.eq_false_iff]
        intro habs
        simp only [occurrenceIntersectsWindow, toResponse, Bool.or_eq_true, Bool.and_eq_true,
          decide_eq_true_eq] at habs
        exact hcase (by omega)
      simp [hocc]
    · rw [if_neg hW]
      rfl

/-- C9 is false in general: for a weekly recurring event, expanding over a
window `W` and then filtering the occurrences to a sub-window `w` (by the
spec's inclusive intersection test) keeps an occurrence that starts shortly
before `w` but overlaps it, while expanding directly over `w` drops that
occurrence — `rrule.between` selects by occurrence start alone. -/
theorem claim9_counterexample :
    (expandEvents [eventC9] (monday9am - 3600000) (14 * dayMs)).filter
        (fun o => occurrenceIntersectsWindow o (monday9am + 1800000) (14 * dayMs)) ≠
      expandEvents [eventC9] (monday9am + 1800000) (14 * dayMs) := by
  decide

/-- C9 (amended): windowing commutes with expansion for event sets containing
only non-recurring events (with valid intervals): expanding over `[rs, re]`
and filtering the occurrences to a contained sub-window `[w1, w2]` with the
inclusive intersection test equals expanding directly over `[w1, w2]`.  For
recurring events the round-trip fails (see the counterexample). -/
theorem claim9_roundtrip_nonrecurring (events : List Event) (rs re w1 w2 : Nat)
    (hnr : ∀ e ∈ events, parseRecurrence e.recurrenceRule = none)
    (hv : ∀ e ∈ events, e.start ≤ e.endTime)
    (h1 : rs ≤ w1) (h12 : w1 ≤ w2) (h2 : w2 ≤ re) :
    (expandEvents events rs re).filter (fun o => occurrenceIntersectsWindow o w1 w2) =
      expandEvents events w1 w2 := by
  unfold expandEvents
  rw [filter_sortByStart]
  congr 1
  induction events with
  | nil => rfl
  | cons e es ih =>
    rw [List.flatMap_cons, List.flatMap_cons, List.filter_append]
    rw [expandOne_filter_subwindow e (hnr e (by simp)) (hv e (by simp)) h1 h12 h2]
    rw [ih (fun x hx => hnr x (by simp [hx])) (fun x hx => hv x (by simp [hx]))]

theorem claim9_witness :
    (expandEvents [eventC3] 0 1000).filter
        (fun o => occurrenceIntersectsWindow o 50 500) =
      expandEvents [eventC3] 50 500 :=
  claim9_roundtrip_nonrecurring [eventC3] 0 1000 50 500 (by decide) (by decide)
    (by decide) (by decide) (by decide)

theorem dayMs_pos : 0 < dayMs := by norm_num [dayMs]

theorem rruleMatches_eq_true_iff {d : Nat} {W : List Nat} {k j : Nat} :
    rruleMatches d W k j = true ↔
      ((d / dayMs + j + 4) % 7 ∈ W ∧
       ((d / dayMs + j + 3) / 7 - (d / dayMs + 3) / 7) % k = 0) := by
  unfold rruleMatches weekdayOf mondayWeek
  rw [Nat.add_mul_div_right d j dayMs_pos, Bool.and_eq_true]
  exact and_congr List.elem_iff beq_iff_eq

theorem rruleMatches_shift (d : Nat) (W : List Nat) (k j m : Nat) :
    rruleMatches d W k (j + 7 * (k * m)) = rruleMatches d W k j := by
  unfold rruleMatches weekdayOf mondayWeek
  rw [Nat.add_mul_div_right d (j + 7 * (k * m)) dayMs_pos,
    Nat.add_mul_div_right d j dayMs_pos]
  have h1 : (d / dayMs + (j + 7 * (k * m)) + 4) % 7 = (d / dayMs + j + 4) % 7 := by
    omega
  have h2 : (d / dayMs + (j + 7 * (k * m)) + 3) / 7 = (d / dayMs + j + 3) / 7 + k * m := by
    omega
  have h3 : (d / dayMs + j + 3) / 7 + k * m - (d / dayMs + 3) / 7 =
      ((d / dayMs + j + 3) / 7 - (d / dayMs + 3) / 7) + k * m := by
    have : (d / dayMs + 3) / 7 ≤ (d / dayMs + j + 3) / 7 := by omega
    omega
  rw [h1, h2, h3, Nat.add_mul_mod_self_left]

theorem rruleMatches_exists_lt (d : Nat) (W : List Nat) (k : Nat) (hkpos : 0 < k)
    (w : Nat) (hw : w ∈ W) (hw7 : w < 7) :
    ∃ j, j < 7 * k ∧ rruleMatches d W k j = true := by
  have hj07 : (w + 7 - (d / dayMs + 4) % 7) % 7 < 7 := by omega
  have hwd0 : (d / dayMs + (w + 7 - (d / dayMs + 4) % 7) % 7 + 4) % 7 = w := by omega
  by_cases hk1 : k = 1
  · refine ⟨(w + 7 - (d / dayMs + 4) % 7) % 7, by omega, ?_⟩
    rw [rruleMatches_eq_true_iff, hwd0, hk1]
    exact ⟨hw, Nat.mod_one _⟩
  · have hk2 : 2 ≤ k := by omega
    rcases (by omega :
        (d / dayMs + (w + 7 - (d / dayMs + 4) % 7) % 7 + 3) / 7 - (d / dayMs + 3) / 7 = 0 ∨
        (d / dayMs + (w + 7 - (d / dayMs + 4) % 7) % 7 + 3) / 7 - (d / dayMs + 3) / 7 = 1)
        with hm0 | hm0
    · refine ⟨(w + 7 - (d / dayMs + 4) % 7) % 7, by omega, ?_⟩
      rw [rruleMatches_eq_true_iff, hwd0, hm0]
      exact ⟨hw, Nat.zero_mod k⟩
    · refine ⟨(w + 7 - (d / dayMs + 4) % 7) % 7 + 7 * (k - 1), by omega, ?_⟩
      rw [rruleMatches_eq_true_iff]
      have hwd1 : (d / dayMs + ((w + 7 - (d / dayMs + 4) % 7) % 7 + 7 * (k - 1)) + 4) % 7
          = w := by omega
      have hwk1 : (d / dayMs + ((w + 7 - (d / dayMs + 4) % 7) % 7 + 7 * (k - 1)) + 3) / 7
          - (d / dayMs + 3) / 7 = k := by omega
      rw [hwd1, hwk1]
      exact ⟨hw, Nat.mod_self k⟩

theorem count_matches_ge (d : Nat) (W : List Nat) (k : Nat)
    (hex : ∃ j, j < 7 * k ∧ rruleMatches d W k j = true) (n : Nat) :
    n ≤ ((List.range (7 * k * n)).filter (rruleMatches d W k)).length := by
  induction n with
  | zero => simp
  | succ n ih =>
    rw [show 7 * k * (n + 1) = 7 * k * n + 7 * k from by ring, List.range_add,
      List.filter_append, List.length_append]
    rcases hex with ⟨j, hj, hmatch⟩
    have hmem : (7 * k * n + j) ∈ ((List.range (7 * k)).map (7 * k * n + ·)).filter
        (rruleMatches d W k) := by
      rw [List.mem_filter]
      refine ⟨List.mem_map.mpr ⟨j, List.mem_range.mpr hj, rfl⟩, ?_⟩
      rw [show 7 * k * n + j = j + 7 * (k * n) from by ring, rruleMatches_shift]
      exact hmatch
    have hpos := List.length_pos_of_mem hmem
    omega

theorem rruleBetween_count_length (d : Nat) (rule : RecurrenceRuleInput)
    (n k rangeStart rangeEnd : Nat)
    (hk : rule.interval.getD 1 = k) (hkpos : 0 < k)
    (hcount : rule.count = some n) (huntil : rule.untilTime = none)
    (hwd : ∀ w ∈ rule.weekdays, w < 7) (hne : rule.weekdays ≠ [])
    (hrs : rangeStart ≤ d) (hre : d + 7 * k * n * dayMs ≤ rangeEnd) :
    (rruleBetween d rule rangeStart rangeEnd).length = n := by
  simp only [dayMs] at hre
  have hd : d ≤ rangeEnd := by omega
  have hk0 : (k == 0) = false := by
    rw [beq_eq_false_iff_ne]
    omega
  simp only [rruleBetween, hcount, huntil, hk, hk0, Bool.false_eq_true, if_false, if_pos hd]
  have hjMge : 7 * k * n ≤ (rangeEnd - d) / dayMs + 1 := by
    simp only [dayMs]
    omega
  obtain ⟨rest, hrest⟩ : ∃ rest, (rangeEnd - d) / dayMs + 1 = 7 * k * n + rest :=
    ⟨(rangeEnd - d) / dayMs + 1 - 7 * k * n, by omega⟩
  rw [hrest, List.range_add, List.filter_append, List.map_append]
  obtain ⟨w, hw⟩ : ∃ w, w ∈ rule.weekdays := by
    cases hW : rule.weekdays with
    | nil => exact absurd hW hne
    | cons a l => exact ⟨a, List.mem_cons_self a l⟩
  have hex := rruleMatches_exists_lt d rule.weekdays k hkpos w hw (hwd w hw)
  have hAlen : n ≤ ((List.range (7 * k * n)).filter (rruleMatches d rule.weekdays k)).length :=
    count_matches_ge d rule.weekdays k hex n
  have hAmaplen : n ≤ (((List.range (7 * k * n)).filter
      (rruleMatches d rule.weekdays k)).map (fun j => d + j * dayMs)).length := by
    rw [List.length_map]
    exact hAlen
  rw [List.take_append_of_le_length hAmaplen]
  have hall : ∀ t ∈ ((((List.range (7 * k * n)).filter
      (rruleMatches d rule.weekdays k)).map (fun j => d + j * dayMs)).take n),
      (decide (rangeStart ≤ t) && decide (t ≤ rangeEnd)) = true := by
    intro t ht
    rcases List.mem_map.mp (List.mem_of_mem_take ht) with ⟨j, hj, rfl⟩
    have hj' : j < 7 * k * n := List.mem_range.mp (List.mem_filter.mp hj).1
    simp only [Bool.and_eq_true, decide_eq_true_eq, dayMs]
    omega
  rw [List.filter_eq_self.mpr hall, List.length_take, List.length_map]
  omega

/-- C4: for a recurring event whose parsed rule has `count = N` and no
`until`, expansion over a window that contains the whole sequence (it starts
at or before the event and reaches at least `N` interval-weeks past it)
yields exactly `N` occurrences; no occurrence starts before the event's
start; and any two occurrences falling on the same weekday are a whole
number of `interval` weeks apart. -/
theorem claim4_count_exact (e : Event) (rule : RecurrenceRuleInput)
    (n k rangeStart rangeEnd : Nat)
    (hparse : parseRecurrence e.recurrenceRule = some rule)
    (hcount : rule.count = some n) (huntil : rule.untilTime = none)
    (hk : rule.interval.getD 1 = k) (hkpos : 0 < k)
    (hwd : ∀ w ∈ rule.weekdays, w < 7) (hne : rule.weekdays ≠ [])
    (hrs : rangeStart ≤ e.start) (hre : e.start + 7 * k * n * dayMs ≤ rangeEnd) :
    (expandEvents [e] rangeStart rangeEnd).length = n ∧
    (∀ o ∈ expandEvents [e] rangeStart rangeEnd, e.start ≤ o.start) ∧
    (∀ o₁ ∈ expandEvents [e] rangeStart rangeEnd,
      ∀ o₂ ∈ expandEvents [e] rangeStart rangeEnd,
        weekdayOf o₁.start = weekdayOf o₂.start → o₁.start ≤ o₂.start →
        (o₂.start - o₁.start) % (7 * k * dayMs) = 0) := by
  have hexp : expandEvents [e] rangeStart rangeEnd =
      sortByStart ((rruleBetween e.start rule rangeStart rangeEnd).map
        (fun s => toResponse e s (s + baseDuration e) true
          (some (buildRecurrenceSummary rule)) (some rule))) := by
    rw [expandEvents_singleton]
    simp only [expandOne, hparse]
  refine ⟨?_, ?_, ?_⟩
  · rw [hexp, length_sortByStart, List.length_map]
    exact rruleBetween_count_length e.start rule n k rangeStart rangeEnd hk hkpos hcount
      huntil hwd hne hrs hre
  · intro o ho
    rw [hexp] at ho
    rcases List.mem_map.mp (mem_sortByStart.mp ho) with ⟨s, hs, rfl⟩
    rcases rruleBetween_shape hs with ⟨j, _, rfl, _, _, _⟩
    simp only [toResponse]
    omega
  · intro o₁ h₁ o₂ h₂ hweek hle
    rw [hexp] at h₁ h₂
    rcases List.mem_map.mp (mem_sortByStart.mp h₁) with ⟨s₁, hs₁, rfl⟩
    rcases List.mem_map.mp (mem_sortByStart.mp h₂) with ⟨s₂, hs₂, rfl⟩
    simp only [toResponse] at hweek hle ⊢
    rcases rruleBetween_shape hs₁ with ⟨j₁, hm₁, he₁, _, _, _⟩
    rcases rruleBetween_shape hs₂ with ⟨j₂, hm₂, he₂, _, _, _⟩
    subst he₁
    subst he₂
    rw [hk] at hm₁ hm₂
    rcases rruleMatches_eq_true_iff.mp hm₁ with ⟨_, hc₁⟩
    rcases rruleMatches_eq_true_iff.mp hm₂ with ⟨_, hc₂⟩
    unfold weekdayOf at hweek
    rw [Nat.add_mul_div_right e.start j₁ dayMs_pos,
      Nat.add_mul_div_right e.start j₂ dayMs_pos] at hweek
    have hj : j₁ ≤ j₂ := by
      simp only [dayMs] at hle
      omega
    have h7 : (7 : Nat) ∣ (j₂ - j₁) := by omega
    obtain ⟨m, hm⟩ := h7
    have hd₁ : k ∣ ((e.start / dayMs + j₁ + 3) / 7 - (e.start / dayMs + 3) / 7) :=
      Nat.dvd_of_mod_eq_zero hc₁
    have hd₂ : k ∣ ((e.start / dayMs + j₂ + 3) / 7 - (e.start / dayMs + 3) / 7) :=
      Nat.dvd_of_mod_eq_zero hc₂
    have hdm : k ∣ m := by
      have heq : ((e.start / dayMs + j₂ + 3) / 7 - (e.start / dayMs + 3) / 7) -
          ((e.start / dayMs + j₁ + 3) / 7 - (e.start / dayMs + 3) / 7) = m := by
        omega
      rw [← heq]
      exact Nat.dvd_sub' hd₂ hd₁
    obtain ⟨c, hc⟩ := hdm
    have hsub : e.start + j₂ * dayMs - (e.start + j₁ * dayMs) = (j₂ - j₁) * dayMs := by
      rw [Nat.add_sub_add_left, ← Nat.sub_mul]
    rw [hsub, hm, hc, show 7 * (k * c) * dayMs = 7 * k * dayMs * c from by ring]
    exact Nat.mul_mod_right _ _

theorem claim4_witness :
    (expandEvents [eventC4] 0 (monday9am + 14 * dayMs)).length = 2 ∧
    (∀ o ∈ expandEvents [eventC4] 0 (monday9am + 14 * dayMs), eventC4.start ≤ o.start) ∧
    (∀ o₁ ∈ expandEvents [eventC4] 0 (monday9am + 14 * dayMs),
      ∀ o₂ ∈ expandEvents [eventC4] 0 (monday9am + 14 * dayMs),
        weekdayOf o₁.start = weekdayOf o₂.start → o₁.start ≤ o₂.start →
        (o₂.start - o₁.start) % (7 * 1 * dayMs) = 0) :=
  claim4_count_exact eventC4 ruleC4 2 1 0 (monday9am + 14 * dayMs) rfl rfl rfl rfl
    (by decide) (by decide) (by decide) (by decide) (by decide)

end LcdaCalendar
